import Mathlib

/-!
Verification development for the stream-ranking core of the
stremio-bitmagnet addon (src/addon.js).  The JavaScript pipeline is
shallowly embedded: strings are Lean `String`s, JS numbers that hold
byte counts are `Nat`, parsed integers are `Int` (with `Option` for
`NaN`/`null`), and fractional arithmetic (sizes in GiB, quality
scores) is carried out in `ℚ`.  Each definition mirrors the source
function of the same name.
-/

/-- Lowercase a string character by character (JS `toLowerCase` on the
ASCII names handled by the addon). -/
def lowerStr (s : String) : String := ⟨s.data.map Char.toLower⟩

/-- Does `pat` occur at the head of `s`? -/
def matchesHead : List Char → List Char → Bool
  | [], _ => true
  | _ :: _, [] => false
  | p :: ps, c :: cs => p == c && matchesHead ps cs

/-- Substring occurrence on character lists. -/
def hasSubAux (pat : List Char) : List Char → Bool
  | [] => matchesHead pat []
  | s@(_ :: rest) => matchesHead pat s || hasSubAux pat rest

/-- JS `String.prototype.includes`: `hasSub hay pat` is true iff `pat`
occurs as a contiguous substring of `hay`. -/
def hasSub (hay pat : String) : Bool := hasSubAux pat.data hay.data

/-- JS `String.prototype.split` with a one-character separator. -/
def jsSplit (sep : Char) : List Char → List (List Char)
  | [] => [[]]
  | c :: rest =>
    let r := jsSplit sep rest
    if c == sep then [] :: r
    else
      match r with
      | h :: t => (c :: h) :: t
      | [] => [[c]]

/-- Whitespace as JS `trim`/`\s` treats it (ASCII fragment). -/
def isWsChar (c : Char) : Bool :=
  c == ' ' || c == '\t' || c == '\n' || c == '\r' || c.val == 11 || c.val == 12

/-- JS `String.prototype.trim` (ASCII whitespace). -/
def jsTrim (s : String) : String :=
  ⟨((s.data.dropWhile isWsChar).reverse.dropWhile isWsChar).reverse⟩

/-- Value of one decimal digit character. -/
def digitVal (c : Char) : Nat := c.toNat - 48

/-- Maximal run of leading decimal digits; `none` when there is none
(JS `NaN`). -/
def digitsValue (cs : List Char) : Option Nat :=
  match cs.takeWhile Char.isDigit with
  | [] => none
  | ds => some (ds.foldl (fun acc c => 10 * acc + digitVal c) 0)

/-- JS `parseInt(s, 10)`: trim, optional sign, maximal digit run;
`none` models `NaN`. -/
def jsParseInt (s : String) : Option Int :=
  match (jsTrim s).data with
  | '-' :: rest => (digitsValue rest).map (fun n => -(n : Int))
  | '+' :: rest => (digitsValue rest).map (fun n => (n : Int))
  | rest => (digitsValue rest).map (fun n => (n : Int))

/-- Digits with an optional fractional part, as an exact rational. -/
def decimalValue (cs : List Char) : Option ℚ :=
  match cs with
  | '.' :: rest =>
    match rest.takeWhile Char.isDigit with
    | [] => none
    | ds => some ((ds.foldl (fun acc c => 10 * acc + digitVal c) 0 : ℚ) / (10 : ℚ) ^ ds.length)
  | _ =>
    match cs.takeWhile Char.isDigit with
    | [] => none
    | ds =>
      let intPart : ℚ := (ds.foldl (fun acc c => 10 * acc + digitVal c) 0 : ℕ)
      let rest := cs.drop ds.length
      match rest with
      | '.' :: fs =>
        let fds := fs.takeWhile Char.isDigit
        some (intPart + (fds.foldl (fun acc c => 10 * acc + digitVal c) 0 : ℚ) / (10 : ℚ) ^ fds.length)
      | _ => some intPart

/-- JS `parseFloat`: trim, optional sign, decimal literal; `none`
models `NaN` (exponent notation is not used by this addon's
configuration values). -/
def jsParseFloat (s : String) : Option ℚ :=
  match (jsTrim s).data with
  | '-' :: rest => (decimalValue rest).map (fun q => -q)
  | '+' :: rest => decimalValue rest
  | rest => decimalValue rest

/-- JS `str.replace('V', '')`: drop the first occurrence of `V`. -/
def removeFirstV : List Char → List Char
  | [] => []
  | c :: rest => if c == 'V' then rest else c :: removeFirstV rest

/-- JS `str.substring(0, n)`. -/
def strTake (s : String) (n : Nat) : String := ⟨s.data.take n⟩

/-! ## Data model (GraphQL `TorrentContent` as the pipeline consumes it) -/

/-- One entry of BitMagnet's structured `episodes.seasons`. -/
structure SeasonData where
  season : Option Int
  episodes : Option (List Int)
deriving DecidableEq, Repr

/-- BitMagnet's structured `episodes` object. -/
structure Episodes where
  seasons : Option (List SeasonData)
deriving DecidableEq, Repr

/-- The nested `torrent` object of a search hit. -/
structure Torrent where
  name : String
  size : Nat
  tagNames : List String
  magnetUri : String
deriving DecidableEq, Repr

/-- One raw search hit (`torrentContent`). -/
structure Candidate where
  infoHash : String
  contentType : String
  episodes : Option Episodes
  videoResolution : Option String
  videoCodec : Option String
  videoModifier : Option String
  videoSource : Option String
  seeders : Option Int
  torrent : Torrent
deriving DecidableEq, Repr

/-- One parsed season/episode interpretation attached to a candidate. -/
structure ParsedEntry where
  season : Option Int
  episodes : List Int
deriving DecidableEq, Repr

/-- Combined TMDB/OMDb metadata as `getStreams` reads it. -/
structure Metadata where
  title : Option String
  name : Option String
  year : Option Int
  release_date : Option String
  first_air_date : Option String
deriving DecidableEq, Repr

/-- Numeric configuration, kept as the raw environment strings. -/
structure Config where
  MAX_TORRENT_SIZE_GB : String
  MAX_STREAMS_PER_ITEM : String
deriving DecidableEq, Repr

/-- The per-request external world: metadata fetch outcome, the two
BitMagnet search results (`none` = the call threw), the public tracker
list, and the magnet-URI parser (`none` = parse failure or no
`announce` array). -/
structure Env where
  metadataFails : Bool
  metadata : Option Metadata
  broad : Option (List Candidate)
  fallback : Option (List Candidate)
  publicTrackers : List String
  parseAnnounce : String → Option (List String)

/-- One output stream, restricted to the machine-readable fields the
pipeline computes (the emoji display title is presentation only). -/
structure StreamOut where
  infoHash : String
  contentType : String
  quality : String
  seeders : Option Int
  sources : List String
deriving DecidableEq, Repr

/-! ## QualityClassifier (`calculateQualityScore`, `isLowQualityTorrent`) -/

/-- Resolution tier of `calculateQualityScore` (the first `switch`). -/
def resPoints (c : Candidate) : ℚ :=
  match c.videoResolution with
  | some "V4320p" => 100
  | some "V2160p" => 90
  | some "V1440p" => 70
  | some "V1080p" => 50
  | some "V720p" => 30
  | some "V576p" => 10
  | some "V540p" => 10
  | some "V480p" => 10
  | some "V360p" => 10
  | _ => 0

/-- Case-insensitive test for any of the alternatives of a JS regex
such as `/HDR|DV|Dolby Vision/i` (the alternatives used here contain
no metacharacters). -/
def matchAnyI (name : String) (alts : List String) : Bool :=
  alts.any (fun a => hasSub (lowerStr name) a)

/-- HDR / Dolby Vision / REMUX bonus of `calculateQualityScore`. -/
def hdrPoints (c : Candidate) : ℚ :=
  if matchAnyI c.torrent.name ["hdr", "dv", "dolby vision"]
      || c.videoModifier == some "REMUX"
      || matchAnyI c.torrent.name ["remux"] then 15 else 0

/-- Codec bonus of `calculateQualityScore` (the second `switch`). -/
def codecPoints (c : Candidate) : ℚ :=
  match c.videoCodec with
  | some "x265" => 10
  | some "H265" => 10
  | some "H264" => 5
  | _ => 0

/-- Audio bonus of `calculateQualityScore`: outer match on any marker,
then the nested first-match-wins choice. -/
def audioPoints (c : Candidate) : ℚ :=
  if matchAnyI c.torrent.name ["dts-hd", "atmos", "truehd", "dts"] then
    if matchAnyI c.torrent.name ["dts-hd", "atmos"] then 10
    else if matchAnyI c.torrent.name ["truehd", "dts"] then 5
    else 0
  else 0

/-- `.mkv` container bonus of `calculateQualityScore`. -/
def mkvPoints (c : Candidate) : ℚ :=
  if hasSub (lowerStr c.torrent.name) ".mkv" then 5 else 0

/-- `torrent.size` in GiB (`size / (1024 * 1024 * 1024)`). -/
def sizeGB (c : Candidate) : ℚ := (c.torrent.size : ℚ) / (1024 * 1024 * 1024)

/-- Size bonus of `calculateQualityScore`:
`Math.min(sizeGB, 50) * 0.2`. -/
def sizePoints (c : Candidate) : ℚ := min (sizeGB c) 50 * (2 / 10)

/-- `calculateQualityScore` of src/addon.js: the running `score`
accumulates the six contributions in order. -/
def calculateQualityScore (c : Candidate) : ℚ :=
  resPoints c + hdrPoints c + codecPoints c + audioPoints c + mkvPoints c + sizePoints c

/-- The low-quality keyword list of `isLowQualityTorrent`. -/
def lowQualityKeywords : List String :=
  ["telecine", "ts", "cam", "hd-ts", "hd-cam", "web-rip"]

/-- `isLowQualityTorrent` of src/addon.js. -/
def isLowQualityTorrent (c : Candidate) : Bool :=
  let nameL := lowerStr c.torrent.name
  let src := lowerStr ((c.videoSource).getD "")
  let modi := lowerStr ((c.videoModifier).getD "")
  let resLow : Bool :=
    match c.videoResolution with
    | some r =>
      match jsParseInt ⟨removeFirstV r.data⟩ with
      | some n =>
        decide (n ≤ 576) && n != 720 && n != 1080 && n != 1440 && n != 2160 && n != 4320
      | none => false
    | none => false
  resLow ||
    lowQualityKeywords.any (fun k => hasSub nameL k || hasSub src k || hasSub modi k)

/-! ## EpisodeMatcher: normalisation and the structured branch -/

/-- `new Set(eps)` iterated: first occurrences in encounter order. -/
def uniqFirst : List Int → List Int
  | [] => []
  | x :: xs => x :: (uniqFirst xs).filter (fun y => y != x)

/-- Ascending insertion. -/
def insertAsc (x : Int) : List Int → List Int
  | [] => [x]
  | y :: ys => if x ≤ y then x :: y :: ys else y :: insertAsc x ys

/-- Ascending sort (on the duplicate-free lists it is applied to, any
correct ascending sort computes `.sort((a, b) => a - b)`). -/
def sortAsc : List Int → List Int
  | [] => []
  | x :: xs => insertAsc x (sortAsc xs)

/-- `[...new Set(eps)].sort((a, b) => a - b)`: unique values in
ascending order. -/
def jsUniqueSorted (eps : List Int) : List Int :=
  sortAsc (uniqFirst eps)

/-- `addData` of `parseTorrentEpisodeData`: push the normalised entry
unless the `(season, sorted episode set)` combination was seen. -/
def addData (acc : List ParsedEntry) (s : Option Int) (eps : List Int) : List ParsedEntry :=
  let u := jsUniqueSorted eps
  if acc.any (fun p => p.season == s && p.episodes == u) then acc
  else acc ++ [⟨s, u⟩]

/-- The structured branch of `parseTorrentEpisodeData`: entries of
`episodes.seasons` with a non-null season, fed through `addData`. -/
def normStructured (eps : Option Episodes) : List ParsedEntry :=
  match eps with
  | some e =>
    match e.seasons with
    | some ss =>
      ss.foldl (fun acc sd =>
        match sd.season with
        | some s => addData acc (some s) (sd.episodes.getD [])
        | none => acc) []
    | none => []
  | none => []

/-! ## EpisodeMatcher: the free-text regex cascade

A small backtracking matcher: a matcher maps the remaining input to the
ordered list of `(result, rest)` alternatives; the head of the list is
what a JS regex engine (greedy, leftmost) yields. -/

/-- Backtracking matcher monad over character lists. -/
def MatchM (α : Type) := List Char → List (α × List Char)

instance : Monad MatchM where
  pure a := fun s => [(a, s)]
  bind m f := fun s => (m s).flatMap (fun p => f p.1 p.2)

/-- Ordered alternation: all results of `a`, then those of `b`. -/
def mor {α : Type} (a b : MatchM α) : MatchM α := fun s => a s ++ b s

/-- Match one literal character. -/
def mchar (c : Char) : MatchM Unit := fun s =>
  match s with
  | c' :: rest => if c' == c then [((), rest)] else []
  | [] => []

/-- Match one character satisfying a predicate. -/
def msat (p : Char → Bool) : MatchM Unit := fun s =>
  match s with
  | c :: rest => if p c then [((), rest)] else []
  | [] => []

/-- Match a literal string. -/
def mstrAux : List Char → List Char → Option (List Char)
  | [], s => some s
  | _ :: _, [] => none
  | p :: ps, c :: cs => if c == p then mstrAux ps cs else none

/-- Match a literal string. -/
def mstr (pat : String) : MatchM Unit := fun s =>
  match mstrAux pat.data s with
  | some rest => [((), rest)]
  | none => []

/-- Greedy optional (`x?`): with the item first, then without. -/
def mopt (m : MatchM Unit) : MatchM Unit := mor m (pure ())

/-- Greedy `\s*`: longest run first, down to the empty run. -/
def mws : MatchM Unit
  | [] => [((), [])]
  | s@(c :: rest) => if isWsChar c then mws rest ++ [((), s)] else [((), s)]

/-- Greedy `\d{1,3}`: three digits, then two, then one. -/
def mdigits13 : MatchM Nat := fun s =>
  match s with
  | a :: restA =>
    if a.isDigit then
      (match restA with
       | b :: restB =>
         if b.isDigit then
           (match restB with
            | c :: restC =>
              if c.isDigit then
                [(100 * digitVal a + 10 * digitVal b + digitVal c, restC)]
              else []
            | [] => []) ++ [(10 * digitVal a + digitVal b, restB)]
         else []
       | [] => []) ++ [(digitVal a, restA)]
    else []
  | [] => []

/-- Negative lookahead `(?!m)`. -/
def mnot {α : Type} (m : MatchM α) : MatchM Unit := fun s =>
  if (m s).isEmpty then [((), s)] else []

/-- `(?:-|–)`. -/
def mdash : MatchM Unit := mor (mchar '-') (mchar '–')

/-- The inclusive range `[a..b]` built by the episode-range loops. -/
def rangeIncl (a b : Nat) : List Int :=
  (List.range' a (b + 1 - a)).map (fun n => (n : Int))

/-- `/s(\d{1,3})e(\d{1,3})/g`. -/
def pSE : MatchM (List ParsedEntry) := do
  mchar 's'
  let s ← mdigits13
  mchar 'e'
  let e ← mdigits13
  pure [⟨some (s : Int), [(e : Int)]⟩]

/-- `/s(\d{1,3})e(\d{1,3})(?:-|–)(\d{1,3})/g`. -/
def pSERange : MatchM (List ParsedEntry) := do
  mchar 's'
  let s ← mdigits13
  mchar 'e'
  let a ← mdigits13
  mdash
  let b ← mdigits13
  pure [⟨some (s : Int), rangeIncl a b⟩]

/-- `/s(\d{1,3})\s*ep\(?(\d{1,3})(?:-|–)(\d{1,3})\)?/g`. -/
def pSEPRange : MatchM (List ParsedEntry) := do
  mchar 's'
  let s ← mdigits13
  mws
  mstr "ep"
  mopt (mchar '(')
  let a ← mdigits13
  mdash
  let b ← mdigits13
  mopt (mchar ')')
  pure [⟨some (s : Int), rangeIncl a b⟩]

/-- `/season\s*(\d{1,3})(?:\s*episode|\s*ep)\s*(\d{1,3})/g`. -/
def pSeasonEpisode : MatchM (List ParsedEntry) := do
  mstr "season"
  mws
  let s ← mdigits13
  mor (do mws; mstr "episode") (do mws; mstr "ep")
  mws
  let e ← mdigits13
  pure [⟨some (s : Int), [(e : Int)]⟩]

/-- `/s(\d{1,3})(?:-|–)s(\d{1,3})/g`: one season pack per season in
the range. -/
def pSRange : MatchM (List ParsedEntry) := do
  mchar 's'
  let a ← mdigits13
  mdash
  mchar 's'
  let b ← mdigits13
  pure ((List.range' a (b + 1 - a)).map (fun n => ⟨some (n : Int), []⟩))

/-- `/season\s*(\d{1,3})(?:-|–)(\d{1,3})/g`: one season pack per
season in the range. -/
def pSeasonRange : MatchM (List ParsedEntry) := do
  mstr "season"
  mws
  let a ← mdigits13
  mdash
  let b ← mdigits13
  pure ((List.range' a (b + 1 - a)).map (fun n => ⟨some (n : Int), []⟩))

/-- `/s(\d{1,3})(?![eE\d])/g`: bare season pack. -/
def pSPack : MatchM (List ParsedEntry) := do
  mchar 's'
  let s ← mdigits13
  mnot (msat (fun c => c == 'e' || c == 'E' || c.isDigit))
  pure [⟨some (s : Int), []⟩]

/-- `/season\s*(\d{1,3})(?!(?:\s*episode|\s*ep|\d))/g`: word-form
season pack. -/
def pSeasonPack : MatchM (List ParsedEntry) := do
  mstr "season"
  mws
  let s ← mdigits13
  mnot (mor (do mws; mstr "episode") (mor (do mws; mstr "ep") (msat Char.isDigit)))
  pure [⟨some (s : Int), []⟩]

/-- `/ep(\d{1,3})/g`: episode with unknown season. -/
def pEp : MatchM (List ParsedEntry) := do
  mstr "ep"
  let e ← mdigits13
  pure [⟨none, [(e : Int)]⟩]

/-- The ordered pattern cascade of `parseTorrentEpisodeData`. -/
def allPatterns : List (MatchM (List ParsedEntry)) :=
  [pSE, pSERange, pSEPRange, pSeasonEpisode, pSRange, pSeasonRange, pSPack, pSeasonPack, pEp]

/-- `matchAll` scan: leftmost matches, resuming after each match; the
fuel bounds the number of steps (every pattern consumes at least one
character, so `length + 1` suffices). -/
def scanAllAux {α : Type} (m : MatchM α) : Nat → List Char → List α
  | 0, _ => []
  | _ + 1, [] => []
  | fuel + 1, s@(_ :: rest) =>
    match (m s).head? with
    | some (a, r) => a :: scanAllAux m fuel r
    | none => scanAllAux m fuel rest

/-- All matches of `m` over `cs`, as `String.prototype.matchAll` yields
them. -/
def scanAll {α : Type} (m : MatchM α) (cs : List Char) : List α :=
  scanAllAux m (cs.length + 1) cs

/-- The free-text branch of `parseTorrentEpisodeData`: every pattern in
order, every match, merged through `addData`. -/
def textCascade (name : String) : List ParsedEntry :=
  let cs := (lowerStr name).data
  ((allPatterns.map (fun p => scanAll p cs)).flatten.flatten).foldl
    (fun acc e => addData acc e.season e.episodes) []

/-- `parseTorrentEpisodeData` of src/addon.js: structured data wins
when it yields at least one entry; otherwise the text cascade runs. -/
def parseTorrentEpisodeData (torrentName : String) (eps : Option Episodes) : List ParsedEntry :=
  let structured := normStructured eps
  if structured.isEmpty then textCascade torrentName else structured

/-- The per-entry test of the episode filter in `getStreams`
(requested season and episode are the non-null parsed numbers). -/
def entryMatches (season episode : Int) (p : ParsedEntry) : Bool :=
  match p.season with
  | none => false
  | some s =>
    if s == season then
      if p.episodes.isEmpty then true
      else p.episodes.contains episode
    else false

/-- The per-candidate test of the episode filter in `getStreams`:
no parsed data means no match, otherwise any entry may match. -/
def candidateMatches (pd : List ParsedEntry) (season episode : Int) : Bool :=
  if pd.isEmpty then false else pd.any (entryMatches season episode)

/-! ## TrackerReconciler -/

/-- JS `Set.prototype.add`: append unless already a member. -/
def jsSetAdd (l : List String) (x : String) : List String :=
  if l.contains x then l else l ++ [x]

/-- `new Set([...])`: insertion order with first occurrence kept. -/
def jsSetOfList (l : List String) : List String :=
  l.foldl jsSetAdd []

/-- The per-stream source list of `getStreams`: embedded announce URLs
(empty on parse failure), public trackers, then the DHT pseudo-source
when the infoHash is truthy. -/
def buildSources (parsed : Option (List String)) (infoHash : String)
    (publicTrackers : List String) : List String :=
  let announceTrackers := parsed.getD []
  let dhtInfoHash := if infoHash == "" then "" else lowerStr infoHash
  let allTrackers := jsSetOfList
    (announceTrackers.map (fun t => "tracker:" ++ t) ++
      publicTrackers.map (fun t => "tracker:" ++ t))
  if dhtInfoHash == "" then allTrackers
  else jsSetAdd allTrackers ("dht:" ++ dhtInfoHash)

/-! ## RankingPipeline (`getStreams`) -/

/-- One step of the `seenInfoHashes` dedup loop: the accumulator is
`(bitMagnetResults, seenInfoHashes)`. -/
def dedupStep (st : List Candidate × List String) (c : Candidate) :
    List Candidate × List String :=
  if st.2.contains c.infoHash then st else (st.1 ++ [c], st.2 ++ [c.infoHash])

/-- The two-strategy search merge of `getStreams`: broad results are
deduplicated; the fallback search contributes only when the broad one
yielded nothing and a usable year exists. -/
def mergeDedup (broad fallback : List Candidate) (fallbackEnabled : Bool) :
    List Candidate :=
  let st := broad.foldl dedupStep ([], [])
  if st.1.isEmpty && fallbackEnabled then (fallback.foldl dedupStep st).1 else st.1

/-- The conditional quality filter of `getStreams`: drop low-quality
candidates only when some candidate is not low quality. -/
def condQualityFilter (l : List Candidate) : List Candidate :=
  if l.any (fun c => !isLowQualityTorrent c) then
    l.filter (fun c => !isLowQualityTorrent c)
  else l

/-- The size filter of `getStreams`, taking the parsed
`MAX_TORRENT_SIZE_GB` (`none` = `NaN`): applied only when the cap is a
number greater than zero. -/
def sizeFilterVal (maxGB : Option ℚ) (l : List Candidate) : List Candidate :=
  match maxGB with
  | some m => if 0 < m then l.filter (fun c => decide (sizeGB c ≤ m)) else l
  | none => l

/-- JS truthiness of a parsed number (`null`/`NaN` are `none`). -/
def truthyNum (v : Option Int) : Bool :=
  match v with
  | some n => n != 0
  | none => false

/-- The episode filter of `getStreams`: only for series requests with
truthy season and episode; candidates are matched through
`parseTorrentEpisodeData` (the `_parsedEpisodeData` annotation). -/
def episodeFilterStage (type : String) (season episode : Option Int)
    (l : List Candidate) : List Candidate :=
  if type == "series" && truthyNum season && truthyNum episode then
    l.filter (fun c =>
      candidateMatches (parseTorrentEpisodeData c.torrent.name c.episodes)
        (season.getD 0) (episode.getD 0))
  else l

/-- The sort comparator of `getStreams` as a `may precede` relation:
`cmp(a,b) <= 0` for the comparator `seedersB - seedersA`, tie-broken by
`scoreB - scoreA`. -/
def jsStreamLe (a b : Candidate) : Bool :=
  if a.seeders.getD 0 == b.seeders.getD 0 then
    decide (calculateQualityScore b ≤ calculateQualityScore a)
  else decide (b.seeders.getD 0 ≤ a.seeders.getD 0)

/-- The sort of `getStreams` (`Array.prototype.sort` is stable). -/
def sortStage (l : List Candidate) : List Candidate :=
  l.mergeSort jsStreamLe

/-- `parseInt(config.MAX_STREAMS_PER_ITEM, 10) || 10`. -/
def maxStreams (cfg : Config) : Int :=
  match jsParseInt cfg.MAX_STREAMS_PER_ITEM with
  | some n => if n == 0 then 10 else n
  | none => 10

/-- JS `Array.prototype.slice(0, n)`, including a negative `n`. -/
def jsSlice (l : List Candidate) (n : Int) : List Candidate :=
  if 0 ≤ n then l.take n.toNat else l.take (l.length - (-n).toNat)

/-- The sort-and-truncate tail of the pipeline. -/
def sortTruncateStage (cfg : Config) (l : List Candidate) : List Candidate :=
  jsSlice (sortStage l) (maxStreams cfg)

/-- The output record built for one surviving candidate. -/
def mkStreamOut (c : Candidate) (parsed : Option (List String))
    (publicTrackers : List String) : StreamOut :=
  { infoHash := c.infoHash
    contentType := c.contentType
    quality :=
      match c.videoResolution with
      | some r => if r == "" then "Unknown" else ⟨removeFirstV r.data⟩
      | none => "Unknown"
    seeders := c.seeders
    sources := buildSources parsed c.infoHash publicTrackers }

/-- JS `a || b` on optional strings (the empty string is falsy). -/
def strOr (a b : Option String) : Option String :=
  match a with
  | some s => if s == "" then (match b with
      | some t => if t == "" then none else some t
      | none => none) else some s
  | none =>
    match b with
    | some t => if t == "" then none else some t
    | none => none

/-- `yearForSearch` of `getStreams`: the metadata year when truthy,
else the first four characters of `release_date` / `first_air_date`
run through `parseInt`. -/
def yearForSearch (md : Option Metadata) : Option Int :=
  match md with
  | none => none
  | some m =>
    if truthyNum m.year then m.year
    else
      match strOr m.release_date none with
      | some rd => jsParseInt (strTake rd 4)
      | none =>
        match strOr m.first_air_date none with
        | some fd => jsParseInt (strTake fd 4)
        | none => none

/-- The series-id guard of `getStreams`: a series id must split on `:`
into exactly three parts; season and episode are `parseInt`ed. -/
def seriesParams (type id : String) : Option (String × Option Int × Option Int) :=
  if type == "series" then
    match jsSplit ':' id.data with
    | [a, b, c] => some (⟨a⟩, jsParseInt ⟨b⟩, jsParseInt ⟨c⟩)
    | _ => none
  else some (id, none, none)

/-- `getStreams` after a well-formed id: metadata, search, dedup,
filters, sort, truncation and stream assembly. -/
def getStreamsCore (type imdbId : String) (season episode : Option Int)
    (env : Env) (cfg : Config) : List StreamOut :=
  if env.metadataFails then [] else
  let baseTitle :=
    match env.metadata with
    | some m => (strOr m.title m.name).getD imdbId
    | none => imdbId
  if jsTrim baseTitle == "" then [] else
  let year := yearForSearch env.metadata
  let results := mergeDedup (env.broad.getD []) (env.fallback.getD [])
    (!(year == none))
  if results.isEmpty then [] else
  let conditionallyFiltered := condQualityFilter results
  let filteredTorrents :=
    sizeFilterVal (jsParseFloat cfg.MAX_TORRENT_SIZE_GB) conditionallyFiltered
  let relevantTorrents := episodeFilterStage type season episode filteredTorrents
  if relevantTorrents.isEmpty then [] else
  (sortTruncateStage cfg relevantTorrents).map
    (fun c => mkStreamOut c (env.parseAnnounce c.torrent.magnetUri) env.publicTrackers)

/-- The public entry point `getStreams(type, id)` (the stateless path:
caching is identity on the first request). -/
def getStreamsModel (type id : String) (env : Env) (cfg : Config) : List StreamOut :=
  match seriesParams type id with
  | none => []
  | some (imdbId, season, episode) => getStreamsCore type imdbId season episode env cfg

/-! ## Example values used by concrete instances -/

/-- A low-quality candidate of 1 GiB ("cam" keyword in the name). -/
def candLowSmall : Candidate :=
  { infoHash := "hlow", contentType := "movie", episodes := none
    videoResolution := none, videoCodec := none, videoModifier := none
    videoSource := none, seeders := some 3
    torrent := { name := "bad.cam.rip", size := 2 ^ 30, tagNames := [], magnetUri := "" } }

/-- A high-quality candidate of 2 GiB. -/
def candHighBig : Candidate :=
  { infoHash := "hhigh", contentType := "movie", episodes := none
    videoResolution := none, videoCodec := none, videoModifier := none
    videoSource := none, seeders := some 5
    torrent := { name := "good.movie.mkv", size := 2 ^ 31, tagNames := [], magnetUri := "" } }

/-- A high-quality candidate of half a GiB. -/
def candHighSmall : Candidate :=
  { infoHash := "hfine", contentType := "movie", episodes := none
    videoResolution := none, videoCodec := none, videoModifier := none
    videoSource := none, seeders := some 7
    torrent := { name := "fine.movie.mkv", size := 2 ^ 29, tagNames := [], magnetUri := "" } }

/-- The 1080p REMUX example of the specification's score computation. -/
def exampleRemux : Candidate :=
  { infoHash := "hx", contentType := "movie", episodes := none
    videoResolution := some "V1080p", videoCodec := some "H265", videoModifier := none
    videoSource := none, seeders := some 1
    torrent := { name := "Movie.2020.1080p.REMUX.H265.mkv", size := 10 * 2 ^ 30
                 tagNames := [], magnetUri := "" } }

/-- A fixed external world for witnesses. -/
def envEx : Env :=
  { metadataFails := false, metadata := none, broad := some [], fallback := some []
    publicTrackers := [], parseAnnounce := fun _ => none }

/-- A fixed configuration for witnesses. -/
def cfgEx : Config := { MAX_TORRENT_SIZE_GB := "50", MAX_STREAMS_PER_ITEM := "10" }

/-! ## C2: the conditional quality filter on all-low-quality input -/

/-- C2: when every candidate is low quality, the conditional quality
filter returns its input unchanged (same list, hence same length), so
it never maps a non-empty list to an empty one. -/
theorem condQualityFilter_all_low (l : List Candidate)
    (h : ∀ c ∈ l, isLowQualityTorrent c = true) :
    condQualityFilter l = l ∧ (condQualityFilter l).length = l.length ∧
      (l ≠ [] → condQualityFilter l ≠ []) := by
  have hany : l.any (fun c => !isLowQualityTorrent c) = false := by
    simp only [List.any_eq_false]
    intro c hc
    simp [h c hc]
  have heq : condQualityFilter l = l := by
    simp [condQualityFilter, hany]
  exact ⟨heq, by rw [heq], by intro hne; rw [heq]; exact hne⟩

/-- C2 witness: a concrete all-low-quality singleton list. -/
theorem condQualityFilter_all_low_witness :
    condQualityFilter [candLowSmall] = [candLowSmall] ∧
      (condQualityFilter [candLowSmall]).length = [candLowSmall].length ∧
      ([candLowSmall] ≠ ([] : List Candidate) → condQualityFilter [candLowSmall] ≠ []) :=
  condQualityFilter_all_low [candLowSmall] (by decide)

/-! ## C3: the season/episode match predicate -/

/-- One parsed entry satisfies the filter iff its season equals the
request and its episode set is empty (season pack) or contains the
requested episode; a null season never matches. -/
theorem entryMatches_iff (season episode : Int) (p : ParsedEntry) :
    entryMatches season episode p = true ↔
      p.season = some season ∧ (p.episodes = [] ∨ episode ∈ p.episodes) := by
  cases hp : p.season with
  | none => simp [entryMatches, hp]
  | some v =>
    by_cases hv : v = season
    · subst hv
      by_cases he : p.episodes = []
      · simp [entryMatches, hp, he]
      · simp [entryMatches, hp, he, List.isEmpty_iff]
    · simp [entryMatches, hp, hv]

/-- C3: a candidate with parsed entries matches a requested
(season, episode) pair iff some entry has that season and either an
empty episode set (season pack) or the episode as a member; an entry
with a null season never produces a match. -/
theorem candidateMatches_iff (pd : List ParsedEntry) (season episode : Int)
    (h : pd ≠ []) :
    candidateMatches pd season episode = true ↔
      ∃ p ∈ pd, p.season = some season ∧ (p.episodes = [] ∨ episode ∈ p.episodes) := by
  have hne : pd.isEmpty = false := by
    simp [List.isEmpty_iff, h]
  rw [candidateMatches, hne]
  simp only [Bool.false_eq_true, if_false, List.any_eq_true]
  constructor
  · rintro ⟨p, hp, hm⟩
    exact ⟨p, hp, (entryMatches_iff season episode p).mp hm⟩
  · rintro ⟨p, hp, hm⟩
    exact ⟨p, hp, (entryMatches_iff season episode p).mpr hm⟩

/-- C3 witness: a season-1 pack entry matches request (1, 5). -/
theorem candidateMatches_iff_witness :
    candidateMatches [⟨some 1, []⟩] 1 5 = true ↔
      ∃ p ∈ [(⟨some 1, []⟩ : ParsedEntry)],
        p.season = some 1 ∧ (p.episodes = [] ∨ 5 ∈ p.episodes) :=
  candidateMatches_iff [⟨some 1, []⟩] 1 5 (by decide)

/-! ## C10: zero or unparsable season/episode skips the episode filter -/

/-- C10: a series id that splits into three parts but whose parsed
season or episode is `0` or `NaN` leaves the episode-filter stage as
the identity: the candidate list is not filtered by membership. -/
theorem episode_filter_skipped (id mediaId : String) (s e : Option Int)
    (l : List Candidate)
    (hparse : seriesParams "series" id = some (mediaId, s, e))
    (h : s = some 0 ∨ s = none ∨ e = some 0 ∨ e = none) :
    episodeFilterStage "series" s e l = l := by
  rcases h with h | h | h | h <;> subst h <;>
    simp [episodeFilterStage, truthyNum]

/-- C10 witness: id "tt1:0:5" parses but season 0 disables the
filter. -/
theorem episode_filter_skipped_witness :
    episodeFilterStage "series" (some 0) (some 5) [candHighBig] = [candHighBig] :=
  episode_filter_skipped "tt1:0:5" "tt1" (some 0) (some 5) [candHighBig]
    (by decide) (Or.inl rfl)

/-! ## C5: malformed series identifiers -/

/-- A series id that does not split into exactly three parts fails the
guard. -/
theorem seriesParams_malformed (id : String)
    (h : (jsSplit ':' id.data).length ≠ 3) :
    seriesParams "series" id = none := by
  rw [seriesParams, if_pos (by simp)]
  rcases hs : jsSplit ':' id.data with _ | ⟨a, _ | ⟨b, _ | ⟨c, _ | _⟩⟩⟩ <;>
    simp_all

/-- C5: for every external world and configuration, a malformed series
identifier makes the entry point return the empty stream list (the
model is total, so no exception can escape). -/
theorem malformed_series_id (env : Env) (cfg : Config) (id : String)
    (h : (jsSplit ':' id.data).length ≠ 3) :
    getStreamsModel "series" id env cfg = [] := by
  rw [getStreamsModel, seriesParams_malformed id h]

/-- C5 witness: the id "tt123" yields no streams. -/
theorem malformed_series_id_witness :
    getStreamsModel "series" "tt123" envEx cfgEx = [] :=
  malformed_series_id envEx cfgEx "tt123" (by decide)

/-! ## C9: the quality score formula -/

/-- Modelled from the spec (section 4.2): the resolution-tier table. -/
def specResTier (c : Candidate) : ℚ :=
  match c.videoResolution with
  | some "V4320p" => 100
  | some "V2160p" => 90
  | some "V1440p" => 70
  | some "V1080p" => 50
  | some "V720p" => 30
  | some "V576p" => 10
  | some "V540p" => 10
  | some "V480p" => 10
  | some "V360p" => 10
  | _ => 0

/-- Modelled from the spec: +15 for HDR/Dolby-Vision markers, REMUX
modifier or a REMUX name. -/
def specHdrBonus (c : Candidate) : ℚ :=
  if matchAnyI c.torrent.name ["hdr", "dv", "dolby vision"]
      || c.videoModifier == some "REMUX"
      || matchAnyI c.torrent.name ["remux"] then 15 else 0

/-- Modelled from the spec: the codec bonus. -/
def specCodecBonus (c : Candidate) : ℚ :=
  match c.videoCodec with
  | some "x265" => 10
  | some "H265" => 10
  | some "H264" => 5
  | _ => 0

/-- Modelled from the spec: the mutually exclusive audio bonus, first
match wins (DTS-HD or Atmos → 10, else TrueHD or DTS → 5). -/
def specAudioBonus (c : Candidate) : ℚ :=
  if matchAnyI c.torrent.name ["dts-hd", "atmos"] then 10
  else if matchAnyI c.torrent.name ["truehd", "dts"] then 5
  else 0

/-- Modelled from the spec: +5 for a ".mkv" name. -/
def specMkvBonus (c : Candidate) : ℚ :=
  if hasSub (lowerStr c.torrent.name) ".mkv" then 5 else 0

/-- Modelled from the spec: `min(sizeGiB, 50) * 0.2`, capped at 10
points. -/
def specSizeBonus (c : Candidate) : ℚ :=
  min (min (sizeGB c) 50 * (2 / 10)) 10

/-- Modelled from the spec: the quality score as the sum of the six
contributions. -/
def specQualityScore (c : Candidate) : ℚ :=
  specResTier c + specHdrBonus c + specCodecBonus c + specAudioBonus c +
    specMkvBonus c + specSizeBonus c

/-- The nested audio conditional of the code equals the spec's flat
first-match-wins chain. -/
theorem audioPoints_eq_spec (c : Candidate) : audioPoints c = specAudioBonus c := by
  rw [audioPoints, specAudioBonus]
  simp only [matchAnyI, List.any_cons, List.any_nil, Bool.or_false]
  cases hasSub (lowerStr c.torrent.name) "dts-hd" <;>
    cases hasSub (lowerStr c.torrent.name) "atmos" <;>
      cases hasSub (lowerStr c.torrent.name) "truehd" <;>
        cases hasSub (lowerStr c.torrent.name) "dts" <;> simp

/-- The code's uncapped size bonus never exceeds 10, so it equals the
spec's capped bonus. -/
theorem sizePoints_eq_spec (c : Candidate) : sizePoints c = specSizeBonus c := by
  have hle : min (sizeGB c) 50 * (2 / 10) ≤ 10 := by
    have h50 : min (sizeGB c) 50 ≤ 50 := min_le_right _ _
    nlinarith
  rw [sizePoints, specSizeBonus, min_eq_left hle]

/-- C9: the quality score is exactly the spec's component sum, and the
1080p/H265/REMUX/.mkv/10 GiB example scores 82. -/
theorem quality_score_formula :
    (∀ c : Candidate, calculateQualityScore c = specQualityScore c) ∧
      calculateQualityScore exampleRemux = 82 := by
  constructor
  · intro c
    rw [calculateQualityScore, specQualityScore, audioPoints_eq_spec,
      sizePoints_eq_spec]
    rfl
  · have hres : resPoints exampleRemux = 50 := rfl
    have hhdr : hdrPoints exampleRemux = 15 := by
      rw [hdrPoints, if_pos]
      decide
    have hcodec : codecPoints exampleRemux = 10 := rfl
    have haudio : audioPoints exampleRemux = 0 := by
      rw [audioPoints, if_neg]
      decide
    have hmkv : mkvPoints exampleRemux = 5 := by
      rw [mkvPoints, if_pos]
      decide
    have hsize : sizePoints exampleRemux = 2 := by
      have hgb : sizeGB exampleRemux = 10 := by
        rw [sizeGB]
        norm_num [exampleRemux]
      rw [sizePoints, hgb]
      norm_num
    rw [calculateQualityScore, hres, hhdr, hcodec, haudio, hmkv, hsize]
    norm_num

/-! ## C1: order of the size filter and the conditional quality filter -/

/-- The size filter's per-candidate predicate (always true when the cap
is absent or not positive). -/
def sizePass (maxGB : Option ℚ) (c : Candidate) : Bool :=
  match maxGB with
  | some m => if 0 < m then decide (sizeGB c ≤ m) else true
  | none => true

/-- The size-filter stage is the pointwise filter by `sizePass`. -/
theorem sizeFilterVal_eq_filter (maxGB : Option ℚ) (l : List Candidate) :
    sizeFilterVal maxGB l = l.filter (sizePass maxGB) := by
  cases maxGB with
  | none =>
    show l = l.filter (sizePass none)
    rw [show sizePass none = fun _ : Candidate => true from rfl, List.filter_true]
  | some m =>
    show (if 0 < m then l.filter (fun c => decide (sizeGB c ≤ m)) else l) =
      l.filter (sizePass (some m))
    by_cases hm : 0 < m
    · rw [if_pos hm]
      refine List.filter_congr ?_
      intro c _
      show decide (sizeGB c ≤ m) = sizePass (some m) c
      simp only [sizePass]
      rw [if_pos hm]
    · rw [if_neg hm]
      have hp : sizePass (some m) = fun _ : Candidate => true := by
        funext c
        simp only [sizePass]
        rw [if_neg hm]
      rw [hp, List.filter_true]

/-- C1 counterexample: with a 1 GiB cap, a 2 GiB high-quality candidate
and a 1 GiB low-quality one, the two filter orders disagree: size then
quality keeps the low-quality candidate, quality then size keeps
nothing. -/
theorem size_quality_order_counterexample :
    condQualityFilter (sizeFilterVal (some 1) [candHighBig, candLowSmall]) =
        [candLowSmall] ∧
      sizeFilterVal (some 1) (condQualityFilter [candHighBig, candLowSmall]) = [] ∧
      ([candLowSmall] : List Candidate) ≠ [] := by
  have hLow : isLowQualityTorrent candLowSmall = true := by decide
  have hHigh : isLowQualityTorrent candHighBig = false := by decide
  have hsBig : ¬ sizeGB candHighBig ≤ 1 := by
    rw [sizeGB]
    norm_num [candHighBig]
  have hsSmall : sizeGB candLowSmall ≤ 1 := by
    rw [sizeGB]
    norm_num [candLowSmall]
  have hfilter : sizeFilterVal (some 1) [candHighBig, candLowSmall] = [candLowSmall] := by
    rw [sizeFilterVal_eq_filter]
    simp [List.filter, sizePass, hsBig, hsSmall]
  have hcond : condQualityFilter [candHighBig, candLowSmall] = [candHighBig] := by
    simp [condQualityFilter, List.any, List.filter, hLow, hHigh]
  refine ⟨?_, ?_, by simp⟩
  · rw [hfilter]
    simp [condQualityFilter, List.any, List.filter, hLow]
  · rw [hcond, sizeFilterVal_eq_filter]
    simp [List.filter, sizePass, hsBig]

/-- C1 (amended): the two filter orders agree whenever the input either
contains a candidate that is both high quality and within the size cap,
or contains no high-quality candidate at all. -/
theorem size_quality_filters_commute (maxGB : Option ℚ) (l : List Candidate)
    (h : (∃ c ∈ l, isLowQualityTorrent c = false ∧ sizePass maxGB c = true) ∨
      (∀ c ∈ l, isLowQualityTorrent c = true)) :
    condQualityFilter (sizeFilterVal maxGB l) =
      sizeFilterVal maxGB (condQualityFilter l) := by
  rw [sizeFilterVal_eq_filter, sizeFilterVal_eq_filter]
  rcases h with ⟨c, hc, hq, hs⟩ | hall
  · have hH1 : l.any (fun c => !isLowQualityTorrent c) = true :=
      List.any_eq_true.mpr ⟨c, hc, by simp [hq]⟩
    have hH2 : (l.filter (sizePass maxGB)).any (fun c => !isLowQualityTorrent c) = true :=
      List.any_eq_true.mpr ⟨c, List.mem_filter.mpr ⟨hc, hs⟩, by simp [hq]⟩
    rw [condQualityFilter, if_pos hH2, condQualityFilter, if_pos hH1]
    exact List.filter_comm _ _ l
  · have hall2 : ∀ c ∈ l.filter (sizePass maxGB), isLowQualityTorrent c = true :=
      fun c hc => hall c (List.mem_filter.mp hc).1
    have h1 : (l.filter (sizePass maxGB)).any (fun c => !isLowQualityTorrent c) = false := by
      simp only [List.any_eq_false]
      intro c hc
      simp [hall2 c hc]
    have h2 : l.any (fun c => !isLowQualityTorrent c) = false := by
      simp only [List.any_eq_false]
      intro c hc
      simp [hall c hc]
    rw [condQualityFilter, h1, condQualityFilter, h2]
    simp

/-- C1 witness: a high-quality in-cap singleton satisfies the amended
hypothesis and the orders agree on it. -/
theorem size_quality_filters_commute_witness :
    condQualityFilter (sizeFilterVal (some 1) [candHighSmall]) =
      sizeFilterVal (some 1) (condQualityFilter [candHighSmall]) :=
  size_quality_filters_commute (some 1) [candHighSmall]
    (Or.inl ⟨candHighSmall, by simp, by decide, by
      rw [sizePass, if_pos (by norm_num)]
      have : sizeGB candHighSmall ≤ 1 := by
        rw [sizeGB]
        norm_num [candHighSmall]
      simp [this]⟩)

/-! ## C4: structured episode data and the text cascade -/

/-- The `seasons` list a candidate's structured episode data carries. -/
def seasonsListOf (eps : Option Episodes) : List SeasonData :=
  match eps with
  | some e => e.seasons.getD []
  | none => []

/-- `addData` never returns the empty list. -/
theorem addData_ne_nil (acc : List ParsedEntry) (s : Option Int) (eps : List Int) :
    addData acc s eps ≠ [] := by
  rw [addData]
  by_cases h : acc.any (fun p => p.season == s && p.episodes == jsUniqueSorted eps) = true
  · rw [if_pos h]
    intro hacc
    subst hacc
    simp at h
  · rw [if_neg h]
    simp

/-- The structured fold stays non-empty once non-empty. -/
theorem structuredFold_ne_nil (ss : List SeasonData) (acc : List ParsedEntry)
    (h : acc ≠ []) :
    ss.foldl (fun acc sd =>
      match sd.season with
      | some s => addData acc (some s) (sd.episodes.getD [])
      | none => acc) acc ≠ [] := by
  induction ss generalizing acc with
  | nil => exact h
  | cons sd ss ih =>
    cases hs : sd.season with
    | none => simpa [hs] using ih acc h
    | some s =>
      simp only [List.foldl_cons, hs]
      exact ih _ (addData_ne_nil acc (some s) (sd.episodes.getD []))

/-- A structured entry with a non-null season forces a non-empty
normalised list. -/
theorem normStructured_ne_nil (eps : Option Episodes)
    (h : ∃ sd ∈ seasonsListOf eps, sd.season ≠ none) :
    normStructured eps ≠ [] := by
  obtain ⟨sd0, hsd0, hseason⟩ := h
  cases eps with
  | none => simp [seasonsListOf] at hsd0
  | some e =>
    cases hss : e.seasons with
    | none => simp [seasonsListOf, hss] at hsd0
    | some ss =>
      rw [seasonsListOf, hss] at hsd0
      rw [normStructured, hss]
      clear hss
      induction ss with
      | nil => simp at hsd0
      | cons sd tl ih =>
        rcases List.mem_cons.mp hsd0 with heq | htl
        · subst heq
          cases hs : sd0.season with
          | none => exact absurd hs hseason
          | some s =>
            simp only [List.foldl_cons, hs]
            exact structuredFold_ne_nil tl _ (addData_ne_nil [] (some s) _)
        · cases hs : sd.season with
          | none => simpa [List.foldl_cons, hs] using ih htl
          | some s =>
            simp only [List.foldl_cons, hs]
            exact structuredFold_ne_nil tl _ (addData_ne_nil [] (some s) _)

/-- C4 counterexample: structured data `seasons=[{season:1,
episodes:[2,1]}]` is present and non-empty, yet the parser returns the
sorted, deduplicated entry `(1, [1,2])`, not the verbatim `(1, [2,1])`
(the name "s9e9" also shows the cascade did not run). -/
theorem parse_structured_not_verbatim :
    parseTorrentEpisodeData "s9e9" (some ⟨some [⟨some 1, some [2, 1]⟩]⟩) =
        [⟨some 1, [1, 2]⟩] ∧
      ([(⟨some 1, [1, 2]⟩ : ParsedEntry)] : List ParsedEntry) ≠ [⟨some 1, [2, 1]⟩] := by
  constructor
  · decide
  · decide

/-- C4 (amended): when some structured entry has a non-null season, the
parser returns the normalised structured entries — null-season entries
dropped, episode lists sorted and deduplicated, duplicate combinations
merged — and the torrent name (the text cascade) is never consulted. -/
theorem parse_structured_wins (name : String) (eps : Option Episodes)
    (h : ∃ sd ∈ seasonsListOf eps, sd.season ≠ none) :
    parseTorrentEpisodeData name eps = normStructured eps := by
  have hne : (normStructured eps).isEmpty = false := by
    rw [List.isEmpty_eq_false]
    exact normStructured_ne_nil eps h
  rw [parseTorrentEpisodeData, hne]
  simp

/-- C4 witness: a concrete structured entry wins over the name. -/
theorem parse_structured_wins_witness :
    parseTorrentEpisodeData "s3e4" (some ⟨some [⟨some 2, some [5]⟩]⟩) =
      normStructured (some ⟨some [⟨some 2, some [5]⟩]⟩) :=
  parse_structured_wins "s3e4" (some ⟨some [⟨some 2, some [5]⟩]⟩) (by decide)

/-! ## C7: infoHash deduplication -/

/-- Reference form of the dedup fold: the `seen` component is always
the image of the accumulated list under `infoHash`. -/
def dedupAux : List Candidate → List Candidate → List Candidate
  | [], acc => acc
  | c :: cs, acc =>
    if (acc.map (fun x => x.infoHash)).contains c.infoHash then dedupAux cs acc
    else dedupAux cs (acc ++ [c])

/-- The list the dedup loop really consumes: the fallback search
results only when the broad search was empty and enabled, else the
broad results. -/
def mergeInputs (broad fallback : List Candidate) (fallbackEnabled : Bool) :
    List Candidate :=
  if broad.isEmpty && fallbackEnabled then fallback else broad

/-- The stateful fold equals `dedupAux` once `seen` is the hash image
of the accumulator. -/
theorem dedup_foldl_eq (l : List Candidate) (acc : List Candidate) :
    l.foldl dedupStep (acc, acc.map (fun c => c.infoHash)) =
      (dedupAux l acc, (dedupAux l acc).map (fun c => c.infoHash)) := by
  induction l generalizing acc with
  | nil => rfl
  | cons c cs ih =>
    rw [List.foldl_cons]
    simp only [dedupAux, dedupStep]
    by_cases h : (acc.map (fun x => x.infoHash)).contains c.infoHash = true
    · rw [if_pos h, if_pos h]
      exact ih acc
    · rw [if_neg h, if_neg h]
      have hmap : acc.map (fun c => c.infoHash) ++ [c.infoHash] =
          (acc ++ [c]).map (fun c => c.infoHash) := by simp
      rw [hmap]
      exact ih (acc ++ [c])

/-- Hash membership through `dedupAux`. -/
theorem dedupAux_hash_mem (l : List Candidate) (h' : String) : ∀ acc,
    (h' ∈ (dedupAux l acc).map (fun c => c.infoHash) ↔
      h' ∈ acc.map (fun c => c.infoHash) ∨ h' ∈ l.map (fun c => c.infoHash)) := by
  induction l with
  | nil => intro acc; simp [dedupAux]
  | cons c cs ih =>
    intro acc
    simp only [dedupAux]
    by_cases hc : (acc.map (fun x => x.infoHash)).contains c.infoHash = true
    · rw [if_pos hc, ih acc]
      have hcm : c.infoHash ∈ acc.map (fun c => c.infoHash) := by
        simpa using hc
      simp only [List.map_cons, List.mem_cons]
      constructor
      · rintro (h | h)
        · exact Or.inl h
        · exact Or.inr (Or.inr h)
      · rintro (h | h | h)
        · exact Or.inl h
        · exact Or.inl (h ▸ hcm)
        · exact Or.inr h
    · rw [if_neg hc, ih (acc ++ [c])]
      simp only [List.map_append, List.map_cons, List.mem_append, List.map_nil,
        List.mem_cons, List.mem_singleton, List.not_mem_nil, or_false]
      tauto

/-- `dedupAux` preserves hash distinctness. -/
theorem dedupAux_hash_nodup (l : List Candidate) : ∀ acc,
    (acc.map (fun c => c.infoHash)).Nodup →
    ((dedupAux l acc).map (fun c => c.infoHash)).Nodup := by
  induction l with
  | nil => intro acc h; exact h
  | cons c cs ih =>
    intro acc h
    simp only [dedupAux]
    by_cases hc : (acc.map (fun x => x.infoHash)).contains c.infoHash = true
    · rw [if_pos hc]
      exact ih acc h
    · rw [if_neg hc]
      refine ih (acc ++ [c]) ?_
      have hnotin : c.infoHash ∉ acc.map (fun c => c.infoHash) := by
        simpa using hc
      simp [List.nodup_append, h, hnotin]

/-- Appending a fresh-hash candidate keeps the accumulator canonical
(each member is the first with its hash). -/
theorem canon_extend (acc : List Candidate) (c : Candidate)
    (hacc : ∀ x ∈ acc, acc.find? (fun y => y.infoHash == x.infoHash) = some x)
    (hnotin : c.infoHash ∉ acc.map (fun y => y.infoHash)) :
    ∀ x ∈ acc ++ [c], (acc ++ [c]).find? (fun y => y.infoHash == x.infoHash) = some x := by
  intro x hx
  rcases List.mem_append.mp hx with hxa | hxc
  · rw [List.find?_append, hacc x hxa]
    rfl
  · have hxc' : x = c := by simpa using hxc
    subst hxc'
    have hnone : acc.find? (fun y => y.infoHash == x.infoHash) = none := by
      rw [List.find?_eq_none]
      intro y hy
      simp only [beq_iff_eq]
      intro heq
      exact hnotin (heq ▸ List.mem_map_of_mem (fun y => y.infoHash) hy)
    rw [List.find?_append, hnone]
    simp [List.find?]

/-- Every member of the deduplicated list is the first occurrence of
its hash in the input. -/
theorem dedupAux_find (l : List Candidate) : ∀ acc,
    (∀ x ∈ acc, acc.find? (fun y => y.infoHash == x.infoHash) = some x) →
    ∀ x ∈ dedupAux l acc,
      (acc ++ l).find? (fun y => y.infoHash == x.infoHash) = some x := by
  induction l with
  | nil =>
    intro acc hacc x hx
    simpa using hacc x hx
  | cons c cs ih =>
    intro acc hacc x hx
    simp only [dedupAux] at hx
    by_cases hc : (acc.map (fun y => y.infoHash)).contains c.infoHash = true
    · rw [if_pos hc] at hx
      have hres := ih acc hacc x hx
      rw [List.find?_append] at hres ⊢
      cases hfa : acc.find? (fun y => y.infoHash == x.infoHash) with
      | some v =>
        rw [hfa] at hres
        simpa using hres
      | none =>
        rw [hfa] at hres
        simp only [Option.none_or] at hres ⊢
        have hpc : (c.infoHash == x.infoHash) = false := by
          by_contra hne
          have heq : c.infoHash = x.infoHash := by
            simpa using eq_true_of_ne_false (fun hf => hne hf)
          have hex : c.infoHash ∈ acc.map (fun y => y.infoHash) := by
            simpa using hc
          obtain ⟨y, hy, hyh⟩ := List.mem_map.mp hex
          have := (List.find?_eq_none.mp hfa) y hy
          simp only [beq_iff_eq] at this
          exact this (hyh.trans heq)
        rw [List.find?_cons_of_neg _ (by simp [hpc])]
        exact hres
    · rw [if_neg hc] at hx
      have hnotin : c.infoHash ∉ acc.map (fun y => y.infoHash) := by
        simpa using hc
      have hres := ih (acc ++ [c]) (canon_extend acc c hacc hnotin) x hx
      rw [List.append_assoc] at hres
      simpa using hres

/-- Dedup of a non-empty accumulator is non-empty. -/
theorem dedupAux_ne_nil (l : List Candidate) : ∀ acc, acc ≠ [] → dedupAux l acc ≠ [] := by
  induction l with
  | nil => intro acc h; exact h
  | cons c cs ih =>
    intro acc h
    simp only [dedupAux]
    by_cases hc : (acc.map (fun x => x.infoHash)).contains c.infoHash = true
    · rw [if_pos hc]; exact ih acc h
    · rw [if_neg hc]; exact ih (acc ++ [c]) (by simp)

/-- Dedup from scratch is empty exactly on empty input. -/
theorem dedupAux_nil_iff (l : List Candidate) : dedupAux l [] = [] ↔ l = [] := by
  cases l with
  | nil => simp [dedupAux]
  | cons c cs =>
    simp only [dedupAux, List.map_nil, List.contains_nil, Bool.false_eq_true,
      if_false, List.nil_append]
    constructor
    · intro h
      exact absurd h (dedupAux_ne_nil cs [c] (by simp))
    · intro h
      exact absurd h (by simp)

/-- The two-strategy merge equals dedup of the list it really
consumes. -/
theorem mergeDedup_eq (b f : List Candidate) (fe : Bool) :
    mergeDedup b f fe = dedupAux (mergeInputs b f fe) [] := by
  rw [mergeDedup, mergeInputs]
  have h0 : (([], []) : List Candidate × List String) =
      ([], ([] : List Candidate).map (fun c => c.infoHash)) := rfl
  rw [h0, dedup_foldl_eq]
  by_cases hb : b = []
  · subst hb
    cases fe with
    | false => simp [dedupAux]
    | true =>
      simp only [dedupAux, List.map_nil, List.isEmpty_nil, Bool.true_and]
      rw [if_pos trivial, if_pos trivial]
      rw [show (([], []) : List Candidate × List String) =
          ([], ([] : List Candidate).map (fun c => c.infoHash)) from rfl,
        dedup_foldl_eq f []]
  · have hne : dedupAux b [] ≠ [] := fun h => hb ((dedupAux_nil_iff b).mp h)
    have hemp : (dedupAux b []).isEmpty = false := by
      rw [List.isEmpty_eq_false]
      exact hne
    have hbe : b.isEmpty = false := by
      rw [List.isEmpty_eq_false]
      exact hb
    rw [hemp, hbe]
    simp

/-- The conditional quality filter yields a sublist. -/
theorem condQualityFilter_sublist (l : List Candidate) :
    (condQualityFilter l).Sublist l := by
  rw [condQualityFilter]
  split
  · exact List.filter_sublist l
  · exact List.Sublist.refl l

/-- The size filter yields a sublist. -/
theorem sizeFilterVal_sublist (m : Option ℚ) (l : List Candidate) :
    (sizeFilterVal m l).Sublist l := by
  rw [sizeFilterVal_eq_filter]
  exact List.filter_sublist l

/-- The episode filter yields a sublist. -/
theorem episodeFilterStage_sublist (t : String) (s e : Option Int)
    (l : List Candidate) : (episodeFilterStage t s e l).Sublist l := by
  rw [episodeFilterStage]
  split
  · exact List.filter_sublist l
  · exact List.Sublist.refl l

/-- Truncation yields a sublist. -/
theorem jsSlice_sublist (l : List Candidate) (n : Int) : (jsSlice l n).Sublist l := by
  rw [jsSlice]
  split <;> exact List.take_sublist _ _

/-- The sort stage is a permutation. -/
theorem sortStage_perm (l : List Candidate) : (sortStage l).Perm l :=
  List.mergeSort_perm l jsStreamLe

/-- Hash distinctness survives the whole post-dedup pipeline tail. -/
theorem pipelineTail_hash_nodup (t : String) (season episode : Option Int)
    (env : Env) (cfg : Config) (results : List Candidate)
    (h : (results.map (fun c => c.infoHash)).Nodup) :
    (((sortTruncateStage cfg (episodeFilterStage t season episode
          (sizeFilterVal (jsParseFloat cfg.MAX_TORRENT_SIZE_GB)
            (condQualityFilter results)))).map
        (fun c => mkStreamOut c (env.parseAnnounce c.torrent.magnetUri)
          env.publicTrackers)).map
      (fun s => s.infoHash)).Nodup := by
  have hrelsub : (episodeFilterStage t season episode
      (sizeFilterVal (jsParseFloat cfg.MAX_TORRENT_SIZE_GB)
        (condQualityFilter results))).Sublist results :=
    ((episodeFilterStage_sublist _ _ _ _).trans
      (sizeFilterVal_sublist _ _)).trans (condQualityFilter_sublist results)
  have h1 : ((episodeFilterStage t season episode
      (sizeFilterVal (jsParseFloat cfg.MAX_TORRENT_SIZE_GB)
        (condQualityFilter results))).map (fun c => c.infoHash)).Nodup :=
    List.Nodup.sublist (hrelsub.map _) h
  have h2 : ((sortStage (episodeFilterStage t season episode
      (sizeFilterVal (jsParseFloat cfg.MAX_TORRENT_SIZE_GB)
        (condQualityFilter results)))).map (fun c => c.infoHash)).Nodup :=
    ((sortStage_perm _).map _).nodup_iff.mpr h1
  have h4 : ((sortTruncateStage cfg (episodeFilterStage t season episode
      (sizeFilterVal (jsParseFloat cfg.MAX_TORRENT_SIZE_GB)
        (condQualityFilter results)))).map (fun c => c.infoHash)).Nodup := by
    rw [sortTruncateStage]
    exact List.Nodup.sublist ((jsSlice_sublist _ _).map _) h2
  rw [List.map_map]
  exact h4

/-- A branch returning no streams cannot break hash distinctness. -/
theorem hashNodup_if {c : Prop} [Decidable c] {xs : List StreamOut}
    (h : (xs.map (fun s => s.infoHash)).Nodup) :
    ((if c then ([] : List StreamOut) else xs).map (fun s => s.infoHash)).Nodup := by
  split
  · simp
  · exact h

/-- The whole entry point never emits two streams with one infoHash. -/
theorem getStreamsModel_hash_nodup (t id : String) (env : Env) (cfg : Config) :
    ((getStreamsModel t id env cfg).map (fun s => s.infoHash)).Nodup := by
  rw [getStreamsModel]
  cases hp : seriesParams t id with
  | none => simp
  | some prm =>
    obtain ⟨imdbId, season, episode⟩ := prm
    have hnd : ((mergeDedup (env.broad.getD []) (env.fallback.getD [])
        (!(yearForSearch env.metadata == none))).map (fun c => c.infoHash)).Nodup := by
      rw [mergeDedup_eq]
      exact dedupAux_hash_nodup _ [] (by simp)
    exact hashNodup_if (hashNodup_if (hashNodup_if (hashNodup_if
      (pipelineTail_hash_nodup t season episode env cfg _ hnd))))

/-- C7: the merged working set and the final output carry each
infoHash at most once; a hash in both search results appears exactly
once; every kept candidate is the first occurrence of its hash in the
list the dedup loop consumed. -/
theorem dedup_infoHash_unique :
    (∀ (broad fallback : List Candidate) (fe : Bool),
      ((mergeDedup broad fallback fe).map (fun c => c.infoHash)).Nodup ∧
      (∀ h, h ∈ broad.map (fun c => c.infoHash) →
        h ∈ fallback.map (fun c => c.infoHash) →
        ((mergeDedup broad fallback fe).map (fun c => c.infoHash)).count h = 1) ∧
      (∀ c ∈ mergeDedup broad fallback fe,
        (mergeInputs broad fallback fe).find? (fun x => x.infoHash == c.infoHash) =
          some c)) ∧
    (∀ (t id : String) (env : Env) (cfg : Config),
      ((getStreamsModel t id env cfg).map (fun s => s.infoHash)).Nodup) := by
  constructor
  · intro broad fallback fe
    have hnd : ((mergeDedup broad fallback fe).map (fun c => c.infoHash)).Nodup := by
      rw [mergeDedup_eq]
      exact dedupAux_hash_nodup _ [] (by simp)
    refine ⟨hnd, ?_, ?_⟩
    · intro h hb hf
      have hbne : broad ≠ [] := by
        intro he
        subst he
        simp at hb
      have hbe : broad.isEmpty = false := by
        rw [List.isEmpty_eq_false]
        exact hbne
      have hin : mergeInputs broad fallback fe = broad := by
        rw [mergeInputs, hbe]
        simp
      have hmem : h ∈ (mergeDedup broad fallback fe).map (fun c => c.infoHash) := by
        rw [mergeDedup_eq, hin, dedupAux_hash_mem]
        simp [hb]
      exact List.count_eq_one_of_mem hnd hmem
    · intro c hc
      rw [mergeDedup_eq] at hc
      have hfind := dedupAux_find (mergeInputs broad fallback fe) [] (by simp) c hc
      simpa using hfind
  · exact getStreamsModel_hash_nodup

/-! ## C8: sort order, truncation and the default stream cap -/

/-- The comparator relation in propositional form: seeders descending,
ties broken by quality score descending. -/
theorem jsStreamLe_iff (a b : Candidate) :
    jsStreamLe a b = true ↔
      (b.seeders.getD 0 < a.seeders.getD 0 ∨
        (a.seeders.getD 0 = b.seeders.getD 0 ∧
          calculateQualityScore b ≤ calculateQualityScore a)) := by
  rw [jsStreamLe]
  by_cases h : a.seeders.getD 0 = b.seeders.getD 0
  · rw [if_pos (by simpa using h)]
    simp only [decide_eq_true_eq]
    constructor
    · intro hs
      exact Or.inr ⟨h, hs⟩
    · rintro (hlt | ⟨_, hs⟩)
      · omega
      · exact hs
  · rw [if_neg (by simpa using h)]
    simp only [decide_eq_true_eq]
    constructor
    · intro hs
      left
      omega
    · rintro (hlt | ⟨heq, _⟩)
      · omega
      · exact absurd heq h

/-- The comparator is transitive. -/
theorem jsStreamLe_trans (a b c : Candidate) (hab : jsStreamLe a b = true)
    (hbc : jsStreamLe b c = true) : jsStreamLe a c = true := by
  rw [jsStreamLe_iff] at hab hbc ⊢
  rcases hab with h1 | ⟨e1, q1⟩ <;> rcases hbc with h2 | ⟨e2, q2⟩
  · left; omega
  · left; omega
  · left; omega
  · exact Or.inr ⟨e1.trans e2, q2.trans q1⟩

/-- The comparator is total. -/
theorem jsStreamLe_total (a b : Candidate) :
    (jsStreamLe a b || jsStreamLe b a) = true := by
  rw [Bool.or_eq_true, jsStreamLe_iff, jsStreamLe_iff]
  rcases lt_trichotomy (a.seeders.getD 0) (b.seeders.getD 0) with h | h | h
  · exact Or.inr (Or.inl h)
  · rcases le_total (calculateQualityScore b) (calculateQualityScore a) with hq | hq
    · exact Or.inl (Or.inr ⟨h, hq⟩)
    · exact Or.inr (Or.inr ⟨h.symm, hq⟩)
  · exact Or.inl (Or.inl h)

/-- C8: the pipeline's tail is a permutation of the survivors sorted by
seeders descending with quality-score tie-breaks, truncated to the
configured cap; a missing or unparsable cap defaults to 10; fifteen
survivors with cap 10 produce exactly ten streams. -/
theorem sort_truncate_spec :
    (∀ (cfg : Config) (l : List Candidate),
      sortTruncateStage cfg l = jsSlice (sortStage l) (maxStreams cfg) ∧
      (sortStage l).Perm l ∧
      List.Pairwise (fun a b =>
        b.seeders.getD 0 < a.seeders.getD 0 ∨
          (a.seeders.getD 0 = b.seeders.getD 0 ∧
            calculateQualityScore b ≤ calculateQualityScore a)) (sortStage l)) ∧
    (∀ cfg : Config, jsParseInt cfg.MAX_STREAMS_PER_ITEM = none →
      maxStreams cfg = 10) ∧
    (∀ (cfg : Config) (l : List Candidate), l.length = 15 → maxStreams cfg = 10 →
      (sortTruncateStage cfg l).length = 10) := by
  refine ⟨fun cfg l => ⟨rfl, sortStage_perm l, ?_⟩, ?_, ?_⟩
  · have hsorted := @List.sorted_mergeSort Candidate jsStreamLe
      jsStreamLe_trans jsStreamLe_total l
    exact hsorted.imp (fun hab => (jsStreamLe_iff _ _).mp hab)
  · intro cfg hnone
    simp [maxStreams, hnone]
  · intro cfg l hlen hmax
    rw [sortTruncateStage, hmax, jsSlice, if_pos (by norm_num)]
    have hl : (sortStage l).length = 15 := (sortStage_perm l).length_eq.trans hlen
    simp [List.length_take, hl]

/-! ## C6: the per-stream source set -/

/-- `Set.add` keeps distinctness. -/
theorem jsSetAdd_nodup (l : List String) (x : String) (h : l.Nodup) :
    (jsSetAdd l x).Nodup := by
  by_cases hc : l.contains x = true
  · rw [jsSetAdd, if_pos hc]
    exact h
  · rw [jsSetAdd, if_neg hc]
    have hx : x ∉ l := by simpa using hc
    simp [List.nodup_append, h, hx]

/-- Membership after `Set.add`. -/
theorem jsSetAdd_mem (l : List String) (x y : String) :
    y ∈ jsSetAdd l x ↔ y ∈ l ∨ y = x := by
  by_cases hc : l.contains x = true
  · rw [jsSetAdd, if_pos hc]
    have hx : x ∈ l := by simpa using hc
    constructor
    · exact Or.inl
    · rintro (h | h)
      · exact h
      · exact h ▸ hx
  · rw [jsSetAdd, if_neg hc]
    simp

/-- `new Set(list)` carries no duplicates. -/
theorem jsSetOfList_nodup (l : List String) : (jsSetOfList l).Nodup := by
  suffices h : ∀ acc : List String, acc.Nodup → (l.foldl jsSetAdd acc).Nodup from
    h [] (by simp)
  induction l with
  | nil => intro acc h; exact h
  | cons x xs ih =>
    intro acc h
    exact ih (jsSetAdd acc x) (jsSetAdd_nodup acc x h)

/-- `new Set(list)` has the same members as the list. -/
theorem jsSetOfList_mem (l : List String) (y : String) :
    y ∈ jsSetOfList l ↔ y ∈ l := by
  suffices h : ∀ acc : List String, y ∈ l.foldl jsSetAdd acc ↔ y ∈ acc ∨ y ∈ l by
    simpa using h []
  induction l with
  | nil => intro acc; simp
  | cons x xs ih =>
    intro acc
    rw [List.foldl_cons, ih (jsSetAdd acc x), jsSetAdd_mem]
    simp only [List.mem_cons]
    tauto

/-- Lowercasing preserves emptiness. -/
theorem lowerStr_eq_empty_iff (s : String) : lowerStr s = "" ↔ s = "" := by
  constructor
  · intro h
    have hd : s.data.map Char.toLower = [] := congrArg String.data h
    have hnil : s.data = [] := List.map_eq_nil_iff.mp hd
    exact String.ext hnil
  · intro h
    subst h
    rfl

/-- Case split form of `buildSources`. -/
theorem buildSources_eq (pr : Option (List String)) (ihash : String)
    (pub : List String) :
    buildSources pr ihash pub =
      if ihash = "" then
        jsSetOfList ((pr.getD []).map (fun t => "tracker:" ++ t) ++
          pub.map (fun t => "tracker:" ++ t))
      else
        jsSetAdd (jsSetOfList ((pr.getD []).map (fun t => "tracker:" ++ t) ++
          pub.map (fun t => "tracker:" ++ t))) ("dht:" ++ lowerStr ihash) := by
  by_cases hih : ihash = ""
  · subst hih
    rw [if_pos rfl]
    rfl
  · rw [if_neg hih, buildSources]
    have h1 : (ihash == "") = false := by simpa using hih
    have h2 : (lowerStr ihash == "") = false := by
      have : ¬ lowerStr ihash = "" := fun h => hih ((lowerStr_eq_empty_iff ihash).mp h)
      simpa using this
    rw [h1]
    simp only [Bool.false_eq_true, if_false, h2]

/-- C6: the source list is duplicate-free and consists exactly of
`tracker:` entries for the embedded announce URLs (empty on magnet
parse failure), `tracker:` entries for the public trackers, and a
single `dht:` entry with the lowercased infoHash when one is present;
the concrete example yields the four expected members. -/
theorem tracker_sources_spec :
    (∀ (pr : Option (List String)) (ihash : String) (pub : List String),
      (buildSources pr ihash pub).Nodup ∧
      (∀ s, s ∈ buildSources pr ihash pub ↔
        (∃ t ∈ pr.getD [], s = "tracker:" ++ t) ∨
        (∃ t ∈ pub, s = "tracker:" ++ t) ∨
        (ihash ≠ "" ∧ s = "dht:" ++ lowerStr ihash))) ∧
    buildSources (some ["a", "b"]) "ABCDEF" ["b", "c"] =
      ["tracker:a", "tracker:b", "tracker:c", "dht:abcdef"] := by
  refine ⟨fun pr ihash pub => ⟨?_, ?_⟩, by decide⟩
  · rw [buildSources_eq]
    by_cases hih : ihash = ""
    · rw [if_pos hih]
      exact jsSetOfList_nodup _
    · rw [if_neg hih]
      exact jsSetAdd_nodup _ _ (jsSetOfList_nodup _)
  · intro s
    rw [buildSources_eq]
    by_cases hih : ihash = ""
    · rw [if_pos hih, jsSetOfList_mem]
      simp only [List.mem_append, List.mem_map, hih]
      constructor
      · rintro (⟨t, ht, hs⟩ | ⟨t, ht, hs⟩)
        · exact Or.inl ⟨t, ht, hs.symm⟩
        · exact Or.inr (Or.inl ⟨t, ht, hs.symm⟩)
      · rintro (⟨t, ht, hs⟩ | ⟨t, ht, hs⟩ | ⟨hne, _⟩)
        · exact Or.inl ⟨t, ht, hs.symm⟩
        · exact Or.inr ⟨t, ht, hs.symm⟩
        · exact absurd rfl hne
    · rw [if_neg hih, jsSetAdd_mem, jsSetOfList_mem]
      simp only [List.mem_append, List.mem_map]
      constructor
      · rintro ((⟨t, ht, hs⟩ | ⟨t, ht, hs⟩) | hs)
        · exact Or.inl ⟨t, ht, hs.symm⟩
        · exact Or.inr (Or.inl ⟨t, ht, hs.symm⟩)
        · exact Or.inr (Or.inr ⟨hih, hs⟩)
      · rintro (⟨t, ht, hs⟩ | ⟨t, ht, hs⟩ | ⟨_, hs⟩)
        · exact Or.inl (Or.inl ⟨t, ht, hs.symm⟩)
        · exact Or.inl (Or.inr ⟨t, ht, hs.symm⟩)
        · exact Or.inr hs
